import Mathlib

/-!
Verification of the cross-window event bus in `src/events.ts`.

The bus serializes an envelope with the JavaScript `JSON.stringify`,
writes it into the VS Code secrets store under `"window.events." ++ name`,
and every window's `onDidChange` listener re-reads the current value and
feeds `JSON.parse` of it to a `vscode.EventEmitter`.

We model the JSON values exchanged on the wire, the `JSON.stringify` /
`JSON.parse` pair restricted to the fragment the bus uses (objects,
arrays, strings, integer numbers, booleans, null; no insignificant
whitespace), and the bus itself as an explicit state machine.
-/

namespace CrossWindowEvents

mutual

/-- JSON values as produced by `JSON.parse`.  Numbers are modelled as
integers (the payloads exchanged by the bus are plain records). -/
inductive Json where
  | null : Json
  | bool (b : Bool) : Json
  | num (n : Int) : Json
  | str (s : String) : Json
  | arr (elems : JsonArr) : Json
  | obj (fields : JsonObj) : Json

/-- A JSON array, as its own inductive so that all recursion stays
structural. -/
inductive JsonArr where
  | nil : JsonArr
  | cons (hd : Json) (tl : JsonArr) : JsonArr

/-- A JSON object: an ordered list of key/value fields, matching the
insertion order that JavaScript objects and `JSON.stringify` preserve. -/
inductive JsonObj where
  | nil : JsonObj
  | cons (key : String) (val : Json) (tl : JsonObj) : JsonObj

end

/-- The decimal digit character for `d < 10`, as `String(n)` uses. -/
def digitChar (d : Nat) : Char := Char.ofNat (48 + d)

/-- Lowercase hexadecimal digit character for `d < 16`, as in the
`\u00xx` escapes emitted by `JSON.stringify`. -/
def hexChar (d : Nat) : Char :=
  if d < 10 then Char.ofNat (48 + d) else Char.ofNat (87 + d)

/-- Numeric value of a hexadecimal digit character, as consumed by the
`\uXXXX` escape form of `JSON.parse`. -/
def hexVal (c : Char) : Option Nat :=
  if 48 ≤ c.toNat ∧ c.toNat ≤ 57 then some (c.toNat - 48)
  else if 97 ≤ c.toNat ∧ c.toNat ≤ 102 then some (c.toNat - 87)
  else if 65 ≤ c.toNat ∧ c.toNat ≤ 70 then some (c.toNat - 55)
  else none

/-- Fuelled decimal printer for naturals (most significant digit
first); fuel keeps the recursion structural so the kernel can
evaluate it. -/
def natToCharsAux : Nat → Nat → List Char
  | 0, _ => []
  | fuel + 1, n =>
    if n < 10 then [digitChar n]
    else natToCharsAux fuel (n / 10) ++ [digitChar (n % 10)]

/-- Decimal representation of a natural number, as `JSON.stringify`
prints a nonnegative number. -/
def natToChars (n : Nat) : List Char := natToCharsAux (n + 1) n

/-- Decimal representation of an integer, as `JSON.stringify` prints a
number. -/
def intToChars (n : Int) : List Char :=
  if n < 0 then '-' :: natToChars n.natAbs else natToChars n.toNat

/-- Greedily split a leading run of decimal digits, as the number
production of `JSON.parse` consumes its digits. -/
def takeDigits : List Char → List Char × List Char
  | [] => ([], [])
  | c :: cs =>
    if c.isDigit then
      let p := takeDigits cs
      (c :: p.1, p.2)
    else ([], c :: cs)

/-- Value of a (most-significant-first) digit string. -/
def digitsToNat (ds : List Char) : Nat :=
  ds.foldl (fun acc c => acc * 10 + (c.toNat - 48)) 0

/-- Parse a nonempty run of decimal digits into a natural number. -/
def parseNat (cs : List Char) : Option (Nat × List Char) :=
  match takeDigits cs with
  | ([], _) => none
  | (ds, r) => some (digitsToNat ds, r)

theorem natToCharsAux_fuel_irrel :
    ∀ fuel fuel' n, n < fuel → n < fuel' →
      natToCharsAux fuel n = natToCharsAux fuel' n := by
  intro fuel
  induction fuel with
  | zero => intro fuel' n h; omega
  | succ f ih =>
    intro fuel' n h h'
    match fuel', h' with
    | f' + 1, h' =>
      simp only [natToCharsAux]
      by_cases h10 : n < 10
      · simp [h10]
      · simp only [h10, if_false]
        have hd : n / 10 < n := Nat.div_lt_self (by omega) (by omega)
        rw [ih f' (n / 10) (by omega) (by omega)]

/-- Unfolding equation for `natToChars`. -/
theorem natToChars_eq (n : Nat) :
    natToChars n =
      if n < 10 then [digitChar n]
      else natToChars (n / 10) ++ [digitChar (n % 10)] := by
  by_cases h10 : n < 10
  · simp [natToChars, natToCharsAux, h10]
  · have h1 : natToChars n = natToCharsAux n (n / 10) ++ [digitChar (n % 10)] := by
      simp [natToChars, natToCharsAux, h10]
    rw [h1, natToCharsAux_fuel_irrel n (n / 10 + 1) (n / 10) (by omega) (by omega)]
    simp [natToChars, h10]

theorem toNat_ofNat_small {n : Nat} (h : n < 55296) : (Char.ofNat n).toNat = n := by
  rw [Char.ofNat, dif_pos (Or.inl (by omega : n < 0xd800))]
  simp [Char.ofNatAux, Char.toNat, UInt32.toNat]

theorem isDigit_iff_toNat {c : Char} :
    c.isDigit = true ↔ 48 ≤ c.toNat ∧ c.toNat ≤ 57 := by
  constructor
  · intro h
    simp only [Char.isDigit, ge_iff_le, Bool.and_eq_true, decide_eq_true_eq] at h
    obtain ⟨h1, h2⟩ := h
    rw [UInt32.le_def] at h1 h2
    exact ⟨h1, h2⟩
  · intro ⟨h1, h2⟩
    simp only [Char.isDigit, ge_iff_le, Bool.and_eq_true, decide_eq_true_eq]
    constructor
    · rw [UInt32.le_def]; exact h1
    · rw [UInt32.le_def]; exact h2

theorem toNat_digitChar {d : Nat} (h : d < 10) : (digitChar d).toNat = 48 + d :=
  toNat_ofNat_small (by omega)

theorem digitChar_isDigit {d : Nat} (h : d < 10) : (digitChar d).isDigit = true := by
  rw [isDigit_iff_toNat, toNat_digitChar h]
  omega

theorem natToChars_digits (n : Nat) : ∀ c ∈ natToChars n, c.isDigit = true := by
  induction n using Nat.strong_induction_on with
  | _ n ih =>
    rw [natToChars_eq]
    by_cases h10 : n < 10
    · simp only [h10, if_true, List.mem_singleton]
      intro c hc; subst hc; exact digitChar_isDigit h10
    · simp only [h10, if_false, List.mem_append, List.mem_singleton]
      intro c hc
      rcases hc with hc | hc
      · exact ih (n / 10) (Nat.div_lt_self (by omega) (by omega)) c hc
      · subst hc; exact digitChar_isDigit (Nat.mod_lt _ (by omega))

theorem natToChars_ne_nil (n : Nat) : natToChars n ≠ [] := by
  rw [natToChars_eq]
  by_cases h10 : n < 10 <;> simp [h10]

theorem foldl_natToChars (n : Nat) : ∀ acc : Nat,
    (natToChars n).foldl (fun acc c => acc * 10 + (c.toNat - 48)) acc =
      acc * 10 ^ (natToChars n).length + n := by
  induction n using Nat.strong_induction_on with
  | _ n ih =>
    intro acc
    rw [natToChars_eq]
    by_cases h10 : n < 10
    · rw [if_pos h10]
      simp only [List.foldl_cons, List.foldl_nil, List.length_singleton, pow_one,
        toNat_digitChar h10]
      omega
    · rw [if_neg h10]
      simp only [List.foldl_append, List.length_append, List.foldl_cons,
        List.foldl_nil, List.length_singleton]
      rw [ih (n / 10) (Nat.div_lt_self (by omega) (by omega)) acc]
      rw [toNat_digitChar (Nat.mod_lt _ (by omega))]
      rw [pow_succ, ← mul_assoc]
      omega

theorem digitsToNat_natToChars (n : Nat) : digitsToNat (natToChars n) = n := by
  unfold digitsToNat
  rw [foldl_natToChars n 0]
  simp

/-- True when the input does not begin with a decimal digit, so a
greedy digit run ends exactly here. -/
def noDigitHead : List Char → Bool
  | [] => true
  | c :: _ => !c.isDigit

theorem takeDigits_append {ds rest : List Char}
    (hds : ∀ c ∈ ds, c.isDigit = true) (hrest : noDigitHead rest = true) :
    takeDigits (ds ++ rest) = (ds, rest) := by
  induction ds with
  | nil =>
    simp only [List.nil_append]
    match rest, hrest with
    | [], _ => rfl
    | c :: cs, hrest =>
      simp only [noDigitHead, Bool.not_eq_true'] at hrest
      simp [takeDigits, hrest]
  | cons c cs ihc =>
    have hc : c.isDigit = true := hds c (List.mem_cons_self c cs)
    have ih2 := ihc (fun x hx => hds x (List.mem_cons_of_mem c hx))
    simp only [List.cons_append, takeDigits, hc, if_true, List.append_eq]
    rw [ih2]

theorem parseNat_natToChars (n : Nat) {rest : List Char}
    (hrest : noDigitHead rest = true) :
    parseNat (natToChars n ++ rest) = some (n, rest) := by
  unfold parseNat
  rw [takeDigits_append (natToChars_digits n) hrest]
  have hne := natToChars_ne_nil n
  match h : natToChars n with
  | [] => exact absurd h hne
  | c :: cs =>
    simp only []
    rw [← h, digitsToNat_natToChars]

/-- Escape a single character the way `JSON.stringify` does inside a
string literal: `"` and `\` get a backslash escape, the five named
control escapes are used where available, any other control character
becomes `\u00xx`, and everything else is emitted literally. -/
def escapeChar (c : Char) : List Char :=
  if c = '"' then ['\\', '"']
  else if c = '\\' then ['\\', '\\']
  else if c.toNat = 8 then ['\\', 'b']
  else if c.toNat = 9 then ['\\', 't']
  else if c.toNat = 10 then ['\\', 'n']
  else if c.toNat = 12 then ['\\', 'f']
  else if c.toNat = 13 then ['\\', 'r']
  else if c.toNat < 32 then
    ['\\', 'u', '0', '0', hexChar (c.toNat / 16), hexChar (c.toNat % 16)]
  else [c]

/-- Escape every character of a string body. -/
def escapeList : List Char → List Char
  | [] => []
  | c :: cs => escapeChar c ++ escapeList cs

/-- Prepend a decoded character to the result of parsing the remainder
of a string body. -/
def consStr (ch : Char) (r : Option (List Char × List Char)) :
    Option (List Char × List Char) :=
  r.map (fun p => (ch :: p.1, p.2))

/-- Parse the body of a JSON string literal (everything after the
opening quote), returning the decoded characters and the input after
the closing quote, as the string production of `JSON.parse` does. -/
def parseStringBody : List Char → Option (List Char × List Char)
  | [] => none
  | c :: rest =>
    if c = '"' then some ([], rest)
    else if c = '\\' then
      match rest with
      | [] => none
      | e :: rest2 =>
        if e = '"' then consStr '"' (parseStringBody rest2)
        else if e = '\\' then consStr '\\' (parseStringBody rest2)
        else if e = '/' then consStr '/' (parseStringBody rest2)
        else if e = 'b' then consStr (Char.ofNat 8) (parseStringBody rest2)
        else if e = 't' then consStr (Char.ofNat 9) (parseStringBody rest2)
        else if e = 'n' then consStr (Char.ofNat 10) (parseStringBody rest2)
        else if e = 'f' then consStr (Char.ofNat 12) (parseStringBody rest2)
        else if e = 'r' then consStr (Char.ofNat 13) (parseStringBody rest2)
        else if e = 'u' then
          match rest2 with
          | d1 :: d2 :: d3 :: d4 :: rest3 =>
            match hexVal d1, hexVal d2, hexVal d3, hexVal d4 with
            | some a, some b, some x, some y =>
              consStr (Char.ofNat (a * 4096 + b * 256 + x * 16 + y))
                (parseStringBody rest3)
            | _, _, _, _ => none
          | _ => none
        else none
    else consStr c (parseStringBody rest)

theorem hexVal_hexChar {d : Nat} (h : d < 16) : hexVal (hexChar d) = some d := by
  by_cases h10 : d < 10
  · have ht : (hexChar d).toNat = 48 + d := by
      unfold hexChar; rw [if_pos h10]; exact toNat_ofNat_small (by omega)
    unfold hexVal
    rw [ht, if_pos (by omega)]
    congr 1
    omega
  · have ht : (hexChar d).toNat = 87 + d := by
      unfold hexChar; rw [if_neg h10]; exact toNat_ofNat_small (by omega)
    unfold hexVal
    rw [ht, if_neg (by omega), if_pos (by omega)]
    congr 1
    omega

theorem psb_quote (rest : List Char) :
    parseStringBody ('"' :: rest) = some ([], rest) := by
  rw [parseStringBody.eq_def]
  dsimp only
  rw [if_pos rfl]

theorem psb_lit {c : Char} (hq : c ≠ '"') (hb : c ≠ '\\') (rest : List Char) :
    parseStringBody (c :: rest) = consStr c (parseStringBody rest) := by
  rw [parseStringBody.eq_def]
  dsimp only
  rw [if_neg hq, if_neg hb]

theorem psb_esc_quote (rest : List Char) :
    parseStringBody ('\\' :: '"' :: rest) = consStr '"' (parseStringBody rest) := by
  rw [parseStringBody.eq_def]
  dsimp only
  rw [if_neg (by decide), if_pos rfl, if_pos rfl]

theorem psb_esc_back (rest : List Char) :
    parseStringBody ('\\' :: '\\' :: rest) = consStr '\\' (parseStringBody rest) := by
  rw [parseStringBody.eq_def]
  dsimp only
  rw [if_neg (by decide), if_pos rfl, if_neg (by decide), if_pos rfl]

theorem psb_esc_b (rest : List Char) :
    parseStringBody ('\\' :: 'b' :: rest) =
      consStr (Char.ofNat 8) (parseStringBody rest) := by
  rw [parseStringBody.eq_def]
  dsimp only
  rw [if_neg (by decide), if_pos rfl, if_neg (by decide), if_neg (by decide),
    if_neg (by decide), if_pos rfl]

theorem psb_esc_t (rest : List Char) :
    parseStringBody ('\\' :: 't' :: rest) =
      consStr (Char.ofNat 9) (parseStringBody rest) := by
  rw [parseStringBody.eq_def]
  dsimp only
  rw [if_neg (by decide), if_pos rfl, if_neg (by decide), if_neg (by decide),
    if_neg (by decide), if_neg (by decide), if_pos rfl]

theorem psb_esc_n (rest : List Char) :
    parseStringBody ('\\' :: 'n' :: rest) =
      consStr (Char.ofNat 10) (parseStringBody rest) := by
  rw [parseStringBody.eq_def]
  dsimp only
  rw [if_neg (by decide), if_pos rfl, if_neg (by decide), if_neg (by decide),
    if_neg (by decide), if_neg (by decide), if_neg (by decide), if_pos rfl]

theorem psb_esc_f (rest : List Char) :
    parseStringBody ('\\' :: 'f' :: rest) =
      consStr (Char.ofNat 12) (parseStringBody rest) := by
  rw [parseStringBody.eq_def]
  dsimp only
  rw [if_neg (by decide), if_pos rfl, if_neg (by decide), if_neg (by decide),
    if_neg (by decide), if_neg (by decide), if_neg (by decide), if_neg (by decide),
    if_pos rfl]

theorem psb_esc_r (rest : List Char) :
    parseStringBody ('\\' :: 'r' :: rest) =
      consStr (Char.ofNat 13) (parseStringBody rest) := by
  rw [parseStringBody.eq_def]
  dsimp only
  rw [if_neg (by decide), if_pos rfl, if_neg (by decide), if_neg (by decide),
    if_neg (by decide), if_neg (by decide), if_neg (by decide), if_neg (by decide),
    if_neg (by decide), if_pos rfl]

theorem psb_esc_u (d1 d2 d3 d4 : Char) (rest : List Char) :
    parseStringBody ('\\' :: 'u' :: d1 :: d2 :: d3 :: d4 :: rest) =
      (match hexVal d1, hexVal d2, hexVal d3, hexVal d4 with
        | some a, some b, some x, some y =>
          consStr (Char.ofNat (a * 4096 + b * 256 + x * 16 + y))
            (parseStringBody rest)
        | _, _, _, _ => none) := by
  rw [parseStringBody.eq_def]
  dsimp only
  rw [if_neg (by decide), if_pos rfl, if_neg (by decide), if_neg (by decide),
    if_neg (by decide), if_neg (by decide), if_neg (by decide), if_neg (by decide),
    if_neg (by decide), if_neg (by decide), if_pos rfl]

theorem parseStringBody_escapeChar {t : List Char} {s' r' : List Char}
    (c : Char) (h : parseStringBody t = some (s', r')) :
    parseStringBody (escapeChar c ++ t) = some (c :: s', r') := by
  unfold escapeChar
  by_cases hq : c = '"'
  · subst hq
    rw [if_pos rfl]
    simp only [List.cons_append, List.nil_append]
    rw [psb_esc_quote, h]
    rfl
  rw [if_neg hq]
  by_cases hb : c = '\\'
  · subst hb
    rw [if_pos rfl]
    simp only [List.cons_append, List.nil_append]
    rw [psb_esc_back, h]
    rfl
  rw [if_neg hb]
  by_cases h8 : c.toNat = 8
  · rw [if_pos h8]
    have hc : Char.ofNat 8 = c := by rw [← h8, Char.ofNat_toNat]
    simp only [List.cons_append, List.nil_append]
    rw [psb_esc_b, h, hc]
    rfl
  rw [if_neg h8]
  by_cases h9 : c.toNat = 9
  · rw [if_pos h9]
    have hc : Char.ofNat 9 = c := by rw [← h9, Char.ofNat_toNat]
    simp only [List.cons_append, List.nil_append]
    rw [psb_esc_t, h, hc]
    rfl
  rw [if_neg h9]
  by_cases h10 : c.toNat = 10
  · rw [if_pos h10]
    have hc : Char.ofNat 10 = c := by rw [← h10, Char.ofNat_toNat]
    simp only [List.cons_append, List.nil_append]
    rw [psb_esc_n, h, hc]
    rfl
  rw [if_neg h10]
  by_cases h12 : c.toNat = 12
  · rw [if_pos h12]
    have hc : Char.ofNat 12 = c := by rw [← h12, Char.ofNat_toNat]
    simp only [List.cons_append, List.nil_append]
    rw [psb_esc_f, h, hc]
    rfl
  rw [if_neg h12]
  by_cases h13 : c.toNat = 13
  · rw [if_pos h13]
    have hc : Char.ofNat 13 = c := by rw [← h13, Char.ofNat_toNat]
    simp only [List.cons_append, List.nil_append]
    rw [psb_esc_r, h, hc]
    rfl
  rw [if_neg h13]
  by_cases h32 : c.toNat < 32
  · rw [if_pos h32]
    have hv1 : hexVal '0' = some 0 := by decide
    have hv3 : hexVal (hexChar (c.toNat / 16)) = some (c.toNat / 16) :=
      hexVal_hexChar (by omega)
    have hv4 : hexVal (hexChar (c.toNat % 16)) = some (c.toNat % 16) :=
      hexVal_hexChar (by omega)
    have hc : Char.ofNat (0 * 4096 + 0 * 256 + c.toNat / 16 * 16 + c.toNat % 16) = c := by
      have harg : 0 * 4096 + 0 * 256 + c.toNat / 16 * 16 + c.toNat % 16 = c.toNat := by
        omega
      rw [harg, Char.ofNat_toNat]
    simp only [List.cons_append, List.nil_append]
    rw [psb_esc_u, hv1, hv3, hv4]
    dsimp only
    rw [h, hc]
    rfl
  · rw [if_neg h32]
    simp only [List.cons_append, List.nil_append]
    rw [psb_lit hq hb, h]
    rfl

theorem parseStringBody_escapeList (s : List Char) (rest : List Char) :
    parseStringBody (escapeList s ++ '"' :: rest) = some (s, rest) := by
  induction s with
  | nil =>
    rw [escapeList, List.nil_append, psb_quote]
  | cons c cs ih =>
    rw [escapeList, List.append_assoc]
    exact parseStringBody_escapeChar c ih

/-- Printed form of an object key with its separating colon: quoted
and escaped key followed by a colon. -/
def keyChars (k : String) : List Char :=
  '"' :: (escapeList k.data ++ ['"', ':'])

mutual

/-- Characters of `JSON.stringify` output for a value: no insignificant
whitespace, object fields in insertion order, strings escaped by
`escapeChar`. -/
def stringifyVal : Json → List Char
  | .null => "null".data
  | .bool true => "true".data
  | .bool false => "false".data
  | .num n => intToChars n
  | .str s => '"' :: (escapeList s.data ++ ['"'])
  | .arr .nil => ['[', ']']
  | .arr (.cons e es) => '[' :: (stringifyVal e ++ stringifyElems es)
  | .obj .nil => ['{', '}']
  | .obj (.cons k v fs) => '{' :: (keyChars k ++ stringifyVal v ++ stringifyFields fs)
  termination_by structural v => v

/-- Printed continuation of an array after its first element: a comma
before every further element, then the closing bracket. -/
def stringifyElems : JsonArr → List Char
  | .nil => [']']
  | .cons e es => ',' :: (stringifyVal e ++ stringifyElems es)
  termination_by structural es => es

/-- Printed continuation of an object after its first field. -/
def stringifyFields : JsonObj → List Char
  | .nil => ['}']
  | .cons k v fs => ',' :: (keyChars k ++ stringifyVal v ++ stringifyFields fs)
  termination_by structural fs => fs

end

mutual

/-- Lower bound used as parser fuel: every unit of measure corresponds
to at least one recursive parsing step. -/
def measureVal : Json → Nat
  | .null => 1
  | .bool _ => 1
  | .num _ => 1
  | .str _ => 1
  | .arr .nil => 1
  | .arr (.cons e es) => 1 + measureVal e + measureElems es
  | .obj .nil => 1
  | .obj (.cons _ v fs) => 1 + (1 + measureVal v) + measureFields fs
  termination_by structural v => v

/-- Measure of an array continuation. -/
def measureElems : JsonArr → Nat
  | .nil => 1
  | .cons e es => 1 + measureVal e + measureElems es
  termination_by structural es => es

/-- Measure of an object continuation. -/
def measureFields : JsonObj → Nat
  | .nil => 1
  | .cons _ v fs => 1 + (1 + measureVal v) + measureFields fs
  termination_by structural fs => fs

end

/-- Consume an expected literal suffix (used for `null`, `true`,
`false`). -/
def expectChars : List Char → List Char → Option (List Char)
  | [], cs => some cs
  | _ :: _, [] => none
  | p :: ps, c :: cs => if c = p then expectChars ps cs else none

mutual

/-- Fuelled parser for a JSON value, modelling `JSON.parse` on the
whitespace-free fragment exchanged by the bus.  Fuel only bounds the
nesting recursion; it never changes the result when large enough. -/
def parseVal : Nat → List Char → Option (Json × List Char)
  | 0, _ => none
  | fuel + 1, cs =>
    match cs with
    | [] => none
    | c :: rest =>
      if c.isDigit then
        match parseNat (c :: rest) with
        | some (m, r) => some (.num (m : Int), r)
        | none => none
      else if c = '-' then
        match parseNat rest with
        | some (m, r) => some (.num (-(m : Int)), r)
        | none => none
      else if c = 'n' then
        match expectChars ['u', 'l', 'l'] rest with
        | some r => some (.null, r)
        | none => none
      else if c = 't' then
        match expectChars ['r', 'u', 'e'] rest with
        | some r => some (.bool true, r)
        | none => none
      else if c = 'f' then
        match expectChars ['a', 'l', 's', 'e'] rest with
        | some r => some (.bool false, r)
        | none => none
      else if c = '"' then
        match parseStringBody rest with
        | some (s, r) => some (.str (String.mk s), r)
        | none => none
      else if c = '[' then
        match rest with
        | [] => none
        | c2 :: rest2 =>
          if c2 = ']' then some (.arr .nil, rest2)
          else
            match parseVal fuel (c2 :: rest2) with
            | some (e, r1) =>
              match parseElems fuel r1 with
              | some (es, r2) => some (.arr (.cons e es), r2)
              | none => none
            | none => none
      else if c = '{' then
        match rest with
        | [] => none
        | c2 :: rest2 =>
          if c2 = '}' then some (.obj .nil, rest2)
          else
            match parseField fuel (c2 :: rest2) with
            | some (kv, r1) =>
              match parseFields fuel r1 with
              | some (fs, r2) => some (.obj (.cons kv.1 kv.2 fs), r2)
              | none => none
            | none => none
      else none
  termination_by structural fuel _cs => fuel

/-- Parse the continuation of an array: either the closing bracket or
a comma followed by the next element. -/
def parseElems : Nat → List Char → Option (JsonArr × List Char)
  | 0, _ => none
  | fuel + 1, cs =>
    match cs with
    | [] => none
    | c :: rest =>
      if c = ']' then some (.nil, rest)
      else if c = ',' then
        match parseVal fuel rest with
        | some (e, r1) =>
          match parseElems fuel r1 with
          | some (es, r2) => some (.cons e es, r2)
          | none => none
        | none => none
      else none
  termination_by structural fuel _cs => fuel

/-- Parse one object field: quoted key, colon, value. -/
def parseField : Nat → List Char → Option ((String × Json) × List Char)
  | 0, _ => none
  | fuel + 1, cs =>
    match cs with
    | [] => none
    | c :: rest =>
      if c = '"' then
        match parseStringBody rest with
        | some (k, r1) =>
          match r1 with
          | [] => none
          | c2 :: r2 =>
            if c2 = ':' then
              match parseVal fuel r2 with
              | some (v, r3) => some ((String.mk k, v), r3)
              | none => none
            else none
        | none => none
      else none
  termination_by structural fuel _cs => fuel

/-- Parse the continuation of an object: either the closing brace or a
comma followed by the next field. -/
def parseFields : Nat → List Char → Option (JsonObj × List Char)
  | 0, _ => none
  | fuel + 1, cs =>
    match cs with
    | [] => none
    | c :: rest =>
      if c = '}' then some (.nil, rest)
      else if c = ',' then
        match parseField fuel rest with
        | some (kv, r1) =>
          match parseFields fuel r1 with
          | some (fs, r2) => some (.cons kv.1 kv.2 fs, r2)
          | none => none
        | none => none
      else none
  termination_by structural fuel _cs => fuel

end

theorem expectChars_append (ps rest : List Char) :
    expectChars ps (ps ++ rest) = some rest := by
  induction ps with
  | nil => rfl
  | cons p ps ih =>
    rw [List.cons_append, expectChars.eq_def]
    dsimp only
    rw [if_pos rfl, ih]

theorem measureVal_pos : ∀ v : Json, 1 ≤ measureVal v := by
  intro v
  match v with
  | .null | .bool _ | .num _ | .str _ => simp [measureVal]
  | .arr .nil | .obj .nil => simp [measureVal]
  | .arr (.cons e es) => simp only [measureVal]; omega
  | .obj (.cons k v fs) => simp only [measureVal]; omega

theorem measureElems_pos : ∀ es : JsonArr, 1 ≤ measureElems es := by
  intro es
  match es with
  | .nil => simp [measureElems]
  | .cons e es => simp only [measureElems]; omega

theorem measureFields_pos : ∀ fs : JsonObj, 1 ≤ measureFields fs := by
  intro fs
  match fs with
  | .nil => simp [measureFields]
  | .cons k v fs => simp only [measureFields]; omega

theorem noDigitHead_rbrack (l : List Char) : noDigitHead (']' :: l) = true := rfl

theorem noDigitHead_rbrace (l : List Char) : noDigitHead ('}' :: l) = true := rfl

theorem noDigitHead_comma (l : List Char) : noDigitHead (',' :: l) = true := rfl

theorem noDigitHead_stringifyElems (es : JsonArr) (rest : List Char) :
    noDigitHead (stringifyElems es ++ rest) = true := by
  match es with
  | .nil => rw [stringifyElems]; exact noDigitHead_rbrack _
  | .cons e es => rw [stringifyElems]; exact noDigitHead_comma _

theorem noDigitHead_stringifyFields (fs : JsonObj) (rest : List Char) :
    noDigitHead (stringifyFields fs ++ rest) = true := by
  match fs with
  | .nil => rw [stringifyFields]; exact noDigitHead_rbrace _
  | .cons k v fs => rw [stringifyFields]; exact noDigitHead_comma _

theorem ne_of_toNat_ne {c d : Char} (h : c.toNat ≠ d.toNat) : c ≠ d :=
  fun he => h (congrArg Char.toNat he)

/-- Every printed value starts with a character that closes neither an
array nor an object, so the element parsers always take the
continuation branch on a printed element. -/
theorem stringifyVal_cons (v : Json) :
    ∃ c cs, stringifyVal v = c :: cs ∧ c ≠ ']' ∧ c ≠ '}' := by
  match v with
  | .null => exact ⟨'n', _, rfl, by decide, by decide⟩
  | .bool true => exact ⟨'t', _, rfl, by decide, by decide⟩
  | .bool false => exact ⟨'f', _, rfl, by decide, by decide⟩
  | .str s => exact ⟨'"', _, rfl, by decide, by decide⟩
  | .arr .nil => exact ⟨'[', _, rfl, by decide, by decide⟩
  | .arr (.cons e es) => exact ⟨'[', _, rfl, by decide, by decide⟩
  | .obj .nil => exact ⟨'{', _, rfl, by decide, by decide⟩
  | .obj (.cons k v fs) => exact ⟨'{', _, rfl, by decide, by decide⟩
  | .num n =>
    rw [stringifyVal, intToChars]
    by_cases hneg : n < 0
    · rw [if_pos hneg]
      exact ⟨'-', _, rfl, by decide, by decide⟩
    · rw [if_neg hneg]
      match hh : natToChars n.toNat with
      | [] => exact absurd hh (natToChars_ne_nil _)
      | c :: cs =>
        have hc : c.isDigit = true := by
          apply natToChars_digits n.toNat
          rw [hh]; exact List.mem_cons_self c cs
        have hle := (isDigit_iff_toNat.mp hc).2
        refine ⟨c, cs, rfl, ne_of_toNat_ne ?_, ne_of_toNat_ne ?_⟩
        · have : (']' : Char).toNat = 93 := rfl
          omega
        · have : ('}' : Char).toNat = 125 := rfl
          omega

theorem parseVal_succ (fuel : Nat) (cs : List Char) :
    parseVal (fuel + 1) cs =
      match cs with
      | [] => none
      | c :: rest =>
        if c.isDigit then
          match parseNat (c :: rest) with
          | some (m, r) => some (.num (m : Int), r)
          | none => none
        else if c = '-' then
          match parseNat rest with
          | some (m, r) => some (.num (-(m : Int)), r)
          | none => none
        else if c = 'n' then
          match expectChars ['u', 'l', 'l'] rest with
          | some r => some (.null, r)
          | none => none
        else if c = 't' then
          match expectChars ['r', 'u', 'e'] rest with
          | some r => some (.bool true, r)
          | none => none
        else if c = 'f' then
          match expectChars ['a', 'l', 's', 'e'] rest with
          | some r => some (.bool false, r)
          | none => none
        else if c = '"' then
          match parseStringBody rest with
          | some (s, r) => some (.str (String.mk s), r)
          | none => none
        else if c = '[' then
          match rest with
          | [] => none
          | c2 :: rest2 =>
            if c2 = ']' then some (.arr .nil, rest2)
            else
              match parseVal fuel (c2 :: rest2) with
              | some (e, r1) =>
                match parseElems fuel r1 with
                | some (es, r2) => some (.arr (.cons e es), r2)
                | none => none
              | none => none
        else if c = '{' then
          match rest with
          | [] => none
          | c2 :: rest2 =>
            if c2 = '}' then some (.obj .nil, rest2)
            else
              match parseField fuel (c2 :: rest2) with
              | some (kv, r1) =>
                match parseFields fuel r1 with
                | some (fs, r2) => some (.obj (.cons kv.1 kv.2 fs), r2)
                | none => none
              | none => none
        else none := rfl

theorem parseElems_succ (fuel : Nat) (cs : List Char) :
    parseElems (fuel + 1) cs =
      match cs with
      | [] => none
      | c :: rest =>
        if c = ']' then some (.nil, rest)
        else if c = ',' then
          match parseVal fuel rest with
          | some (e, r1) =>
            match parseElems fuel r1 with
            | some (es, r2) => some (.cons e es, r2)
            | none => none
          | none => none
        else none := rfl

theorem parseField_succ (fuel : Nat) (cs : List Char) :
    parseField (fuel + 1) cs =
      match cs with
      | [] => none
      | c :: rest =>
        if c = '"' then
          match parseStringBody rest with
          | some (k, r1) =>
            match r1 with
            | [] => none
            | c2 :: r2 =>
              if c2 = ':' then
                match parseVal fuel r2 with
                | some (v, r3) => some ((String.mk k, v), r3)
                | none => none
              else none
          | none => none
        else none := rfl

theorem parseFields_succ (fuel : Nat) (cs : List Char) :
    parseFields (fuel + 1) cs =
      match cs with
      | [] => none
      | c :: rest =>
        if c = '}' then some (.nil, rest)
        else if c = ',' then
          match parseField fuel rest with
          | some (kv, r1) =>
            match parseFields fuel r1 with
            | some (fs, r2) => some (.cons kv.1 kv.2 fs, r2)
            | none => none
          | none => none
        else none := rfl

/-- Round trip of the JSON codec: on any printed value followed by a
continuation that does not start with a digit, each parser returns
exactly the printed value and the untouched continuation, provided the
fuel is at least the value's measure. -/
theorem parse_stringify : ∀ fuel : Nat,
    (∀ v rest, measureVal v ≤ fuel → noDigitHead rest = true →
      parseVal fuel (stringifyVal v ++ rest) = some (v, rest)) ∧
    (∀ es rest, measureElems es ≤ fuel → noDigitHead rest = true →
      parseElems fuel (stringifyElems es ++ rest) = some (es, rest)) ∧
    (∀ k v rest, 1 + measureVal v ≤ fuel → noDigitHead rest = true →
      parseField fuel (keyChars k ++ stringifyVal v ++ rest) = some ((k, v), rest)) ∧
    (∀ fs rest, measureFields fs ≤ fuel → noDigitHead rest = true →
      parseFields fuel (stringifyFields fs ++ rest) = some (fs, rest)) := by
  intro fuel
  induction fuel with
  | zero =>
    refine ⟨fun v rest hm _ => ?_, fun es rest hm _ => ?_,
      fun k v rest hm _ => ?_, fun fs rest hm _ => ?_⟩
    · have := measureVal_pos v; omega
    · have := measureElems_pos es; omega
    · have := measureVal_pos v; omega
    · have := measureFields_pos fs; omega
  | succ F IH =>
    obtain ⟨IHv, IHe, IHf, IHfs⟩ := IH
    refine ⟨fun v rest hm hrest => ?_, fun es rest hm hrest => ?_,
      fun k v rest hm hrest => ?_, fun fs rest hm hrest => ?_⟩
    · cases v with
      | null =>
        rw [stringifyVal, show ("null" : String).data = ['n', 'u', 'l', 'l'] from rfl]
        simp only [List.cons_append, List.nil_append]
        rw [parseVal_succ]
        dsimp only
        rw [if_neg (by decide), if_neg (by decide), if_pos rfl]
        rw [show 'u' :: 'l' :: 'l' :: rest = ['u', 'l', 'l'] ++ rest from rfl,
          expectChars_append]
      | bool b =>
        cases b with
        | true =>
          rw [stringifyVal, show ("true" : String).data = ['t', 'r', 'u', 'e'] from rfl]
          simp only [List.cons_append, List.nil_append]
          rw [parseVal_succ]
          dsimp only
          rw [if_neg (by decide), if_neg (by decide), if_neg (by decide), if_pos rfl]
          rw [show 'r' :: 'u' :: 'e' :: rest = ['r', 'u', 'e'] ++ rest from rfl,
            expectChars_append]
        | false =>
          rw [stringifyVal,
            show ("false" : String).data = ['f', 'a', 'l', 's', 'e'] from rfl]
          simp only [List.cons_append, List.nil_append]
          rw [parseVal_succ]
          dsimp only
          rw [if_neg (by decide), if_neg (by decide), if_neg (by decide),
            if_neg (by decide), if_pos rfl]
          rw [show 'a' :: 'l' :: 's' :: 'e' :: rest = ['a', 'l', 's', 'e'] ++ rest from rfl,
            expectChars_append]
      | num n =>
        rw [stringifyVal, intToChars]
        by_cases hneg : n < 0
        · rw [if_pos hneg]
          simp only [List.cons_append]
          rw [parseVal_succ]
          dsimp only
          rw [if_neg (by decide), if_pos rfl]
          rw [parseNat_natToChars n.natAbs hrest]
          dsimp only
          rw [show -((n.natAbs : Int)) = n from by omega]
        · rw [if_neg hneg]
          match hh : natToChars n.toNat with
          | [] => exact absurd hh (natToChars_ne_nil _)
          | c :: cs =>
            have hcdig : c.isDigit = true := by
              apply natToChars_digits n.toNat
              rw [hh]; exact List.mem_cons_self c cs
            simp only [List.cons_append]
            rw [parseVal_succ]
            dsimp only
            rw [if_pos hcdig]
            rw [show c :: (cs ++ rest) = (c :: cs) ++ rest from rfl, ← hh,
              parseNat_natToChars n.toNat hrest]
            dsimp only
            rw [show ((n.toNat : Int)) = n from by omega]
      | str s =>
        rw [stringifyVal]
        simp only [List.cons_append, List.append_assoc, List.nil_append]
        rw [parseVal_succ]
        dsimp only
        rw [if_neg (by decide), if_neg (by decide), if_neg (by decide),
          if_neg (by decide), if_neg (by decide), if_pos rfl]
        rw [parseStringBody_escapeList]
      | arr es =>
        cases es with
        | nil =>
          rw [stringifyVal]
          simp only [List.cons_append, List.nil_append]
          rw [parseVal_succ]
          dsimp only
          rw [if_neg (by decide), if_neg (by decide), if_neg (by decide),
            if_neg (by decide), if_neg (by decide), if_neg (by decide), if_pos rfl]
          rw [if_pos rfl]
        | cons e es =>
          simp only [measureVal] at hm
          have h1 := measureVal_pos e
          have h2 := measureElems_pos es
          rw [stringifyVal]
          obtain ⟨c, cs, hcons, hcr, hcb⟩ := stringifyVal_cons e
          rw [hcons]
          simp only [List.cons_append, List.append_assoc]
          rw [parseVal_succ]
          dsimp only
          rw [if_neg (by decide), if_neg (by decide), if_neg (by decide),
            if_neg (by decide), if_neg (by decide), if_neg (by decide), if_pos rfl]
          rw [if_neg hcr]
          rw [show c :: (cs ++ (stringifyElems es ++ rest)) =
            (c :: cs) ++ (stringifyElems es ++ rest) from rfl, ← hcons]
          rw [IHv e (stringifyElems es ++ rest) (by omega)
            (noDigitHead_stringifyElems es rest)]
          dsimp only
          rw [IHe es rest (by omega) hrest]
      | obj fs =>
        cases fs with
        | nil =>
          rw [stringifyVal]
          simp only [List.cons_append, List.nil_append]
          rw [parseVal_succ]
          dsimp only
          rw [if_neg (by decide), if_neg (by decide), if_neg (by decide),
            if_neg (by decide), if_neg (by decide), if_neg (by decide),
            if_neg (by decide), if_pos rfl]
          rw [if_pos rfl]
        | cons k v' fs =>
          simp only [measureVal] at hm
          have h1 := measureVal_pos v'
          have h2 := measureFields_pos fs
          rw [stringifyVal]
          simp only [List.cons_append, List.append_assoc]
          rw [show keyChars k = '"' :: (escapeList k.data ++ ['"', ':']) from rfl]
          simp only [List.cons_append]
          rw [parseVal_succ]
          dsimp only
          rw [if_neg (by decide), if_neg (by decide), if_neg (by decide),
            if_neg (by decide), if_neg (by decide), if_neg (by decide),
            if_neg (by decide), if_pos rfl]
          rw [if_neg (by decide)]
          rw [show '"' :: ((escapeList k.data ++ ['"', ':']) ++
              (stringifyVal v' ++ (stringifyFields fs ++ rest))) =
            keyChars k ++ stringifyVal v' ++ (stringifyFields fs ++ rest) from by
              simp [keyChars]]
          rw [IHf k v' (stringifyFields fs ++ rest) (by omega)
            (noDigitHead_stringifyFields fs rest)]
          dsimp only
          rw [IHfs fs rest (by omega) hrest]
    · cases es with
      | nil =>
        rw [stringifyElems]
        simp only [List.cons_append, List.nil_append]
        rw [parseElems_succ]
        dsimp only
        rw [if_pos rfl]
      | cons e es =>
        simp only [measureElems] at hm
        rw [stringifyElems]
        simp only [List.cons_append, List.append_assoc]
        rw [parseElems_succ]
        dsimp only
        rw [if_neg (by decide), if_pos rfl]
        rw [IHv e (stringifyElems es ++ rest) (by omega)
          (noDigitHead_stringifyElems es rest)]
        dsimp only
        rw [IHe es rest (by omega) hrest]
    · rw [show keyChars k ++ stringifyVal v ++ rest =
        '"' :: (escapeList k.data ++ ('"' :: ':' :: (stringifyVal v ++ rest))) from by
          simp [keyChars]]
      rw [parseField_succ]
      dsimp only
      rw [if_pos rfl]
      rw [parseStringBody_escapeList]
      dsimp only
      rw [if_pos rfl]
      rw [IHv v rest (by omega) hrest]
    · cases fs with
      | nil =>
        rw [stringifyFields]
        simp only [List.cons_append, List.nil_append]
        rw [parseFields_succ]
        dsimp only
        rw [if_pos rfl]
      | cons k v' fs =>
        simp only [measureFields] at hm
        rw [stringifyFields]
        simp only [List.cons_append, List.append_assoc]
        rw [parseFields_succ]
        dsimp only
        rw [if_neg (by decide), if_pos rfl]
        rw [show keyChars k ++ (stringifyVal v' ++ (stringifyFields fs ++ rest)) =
          keyChars k ++ stringifyVal v' ++ (stringifyFields fs ++ rest) from
            (List.append_assoc _ _ _).symm]
        rw [IHf k v' (stringifyFields fs ++ rest) (by omega)
          (noDigitHead_stringifyFields fs rest)]
        dsimp only
        rw [IHfs fs rest (by omega) hrest]

theorem measure_le_length_aux : ∀ N : Nat,
    (∀ v : Json, measureVal v ≤ N → measureVal v ≤ (stringifyVal v).length) ∧
    (∀ es : JsonArr, measureElems es ≤ N → measureElems es ≤ (stringifyElems es).length) ∧
    (∀ fs : JsonObj, measureFields fs ≤ N → measureFields fs ≤ (stringifyFields fs).length) := by
  intro N
  induction N with
  | zero =>
    refine ⟨fun v h => ?_, fun es h => ?_, fun fs h => ?_⟩
    · have := measureVal_pos v; omega
    · have := measureElems_pos es; omega
    · have := measureFields_pos fs; omega
  | succ N IH =>
    obtain ⟨IHv, IHe, IHfs⟩ := IH
    refine ⟨fun v h => ?_, fun es h => ?_, fun fs h => ?_⟩
    · cases v with
      | null => decide
      | bool b => cases b <;> decide
      | num n =>
        simp only [stringifyVal, measureVal]
        have hpos : 0 < (intToChars n).length := by
          rw [intToChars]
          by_cases hneg : n < 0
          · simp [hneg]
          · rw [if_neg hneg]
            exact List.length_pos.mpr (natToChars_ne_nil _)
        omega
      | str s => simp [stringifyVal, measureVal]
      | arr es =>
        cases es with
        | nil => simp [stringifyVal, measureVal]
        | cons e es =>
          simp only [stringifyVal, measureVal, List.length_cons,
            List.length_append] at h ⊢
          have h1 := IHv e (by omega)
          have h2 := IHe es (by omega)
          omega
      | obj fs =>
        cases fs with
        | nil => simp [stringifyVal, measureVal]
        | cons k v' fs =>
          simp only [stringifyVal, measureVal, List.length_cons,
            List.length_append] at h ⊢
          have h1 := IHv v' (by omega)
          have h2 := IHfs fs (by omega)
          have h3 : 1 ≤ (keyChars k).length := by simp [keyChars]
          omega
    · cases es with
      | nil => simp [stringifyElems, measureElems]
      | cons e es =>
        simp only [stringifyElems, measureElems, List.length_cons,
          List.length_append] at h ⊢
        have h1 := IHv e (by omega)
        have h2 := IHe es (by omega)
        omega
    · cases fs with
      | nil => simp [stringifyFields, measureFields]
      | cons k v' fs =>
        simp only [stringifyFields, measureFields, List.length_cons,
          List.length_append] at h ⊢
        have h1 := IHv v' (by omega)
        have h2 := IHfs fs (by omega)
        have h3 : 1 ≤ (keyChars k).length := by simp [keyChars]
        omega

theorem measureVal_le_length (v : Json) :
    measureVal v ≤ (stringifyVal v).length :=
  (measure_le_length_aux (measureVal v)).1 v le_rfl

/-- The JavaScript `JSON.stringify` on modelled values, as `fire` uses
it to encode an event. -/
def JSONstringify (v : Json) : String := String.mk (stringifyVal v)

/-- The JavaScript `JSON.parse` as the notification handler uses it:
`none` models the `SyntaxError` exception thrown on input that is not
valid JSON (in the modelled whitespace-free fragment). -/
def JSONparse (s : String) : Option Json :=
  match parseVal (s.data.length + 1) s.data with
  | some (v, []) => some v
  | _ => none

/-- The codec round trip: `JSON.parse` recovers exactly the value that
`JSON.stringify` printed. -/
theorem JSONparse_stringify (v : Json) : JSONparse (JSONstringify v) = some v := by
  unfold JSONparse JSONstringify
  have hd : (String.mk (stringifyVal v)).data = stringifyVal v := rfl
  rw [hd]
  have hm : measureVal v ≤ (stringifyVal v).length + 1 :=
    le_trans (measureVal_le_length v) (by omega)
  have h := (parse_stringify ((stringifyVal v).length + 1)).1 v [] hm rfl
  rw [List.append_nil] at h
  rw [h]

/-- The event payload interface of `events.ts`: an event name and a
record payload.  The TypeScript interface annotates `name` with the
literal type of the one event currently fired; the runtime code is
name-agnostic (the name is only concatenated into the key), so the
model uses `String`. -/
structure IEventPayload where
  name : String
  payload : JsonObj

/-- The JSON value of the envelope `{name, payload}` that
`JSON.stringify(event)` serializes, fields in insertion order. -/
def envelopeJson (e : IEventPayload) : Json :=
  .obj (.cons "name" (.str e.name) (.cons "payload" (.obj e.payload) .nil))

/-- The exact string `fire` stores: `JSON.stringify(event)`. -/
def encodeEvent (e : IEventPayload) : String := JSONstringify (envelopeJson e)

/-- The `EVENT_KEY_PREFIX` constant of `events.ts`. -/
def EVENT_KEY_PREFIX : String := "window.events."

/-- JavaScript `String.prototype.startsWith`, used by the notification
handler's key filter. -/
def strStartsWith (s p : String) : Bool := p.data.isPrefixOf s.data

/-- A subscriber registered on the `vscode.EventEmitter`.  For the
claims only its observable effect matters: whether its callback throws
on a given delivered value. -/
structure Subscriber where
  throwsOn : Json → Bool

/-- Entries of the extension logger, plus the emitter's error channel
(the VS Code emitter reports a listener's exception and keeps going). -/
inductive LogEntry where
  | debug (msg : String) : LogEntry
  | listenerError (idx : Nat) : LogEntry

/-- State of one window (process) of the bus together with its view of
the shared secrets store.

* `store`: the secrets storage content, one live value per key.
* `storeAvailable`: whether the underlying store accepts operations; a
  `false` value makes `secrets.store` / `secrets.get` reject, the
  `StoreUnavailable` failure.
* `pendingNotifs`: keys of `onDidChange` notifications that have fired
  but whose asynchronous handler has not yet run, in order.
* `reads`: every `secrets.get` the handler performed.
* `subs`: the emitter subscribers in registration order.
* `invocations`: each subscriber callback invocation as (registration
  index, delivered parsed value), in order.
* `log`: logger lines and emitter-reported listener errors.
* `unhandled`: errors that escaped the async `onDidChange` callback
  (nothing in `events.ts` catches them, so they become unhandled
  promise rejections).
* `setAttempts`: number of calls made to `secrets.store`. -/
structure ProcState where
  store : List (String × String)
  storeAvailable : Bool
  pendingNotifs : List String
  reads : List String
  subs : List Subscriber
  invocations : List (Nat × Json)
  log : List LogEntry
  unhandled : List String
  setAttempts : Nat

/-- Read a key from the store (`secrets.get`). -/
def storeLookup : List (String × String) → String → Option String
  | [], _ => none
  | (k, v) :: rest, key => if k = key then some v else storeLookup rest key

/-- Write a key (`secrets.store`): replaces any previous value, so the
store keeps exactly one live value per key. -/
def storeSet : List (String × String) → String → String → List (String × String)
  | [], key, val => [(key, val)]
  | (k, v) :: rest, key, val =>
    if k = key then (key, val) :: rest else (k, v) :: storeSet rest key val

/-- The `StoreUnavailable` failure of the underlying store. -/
inductive StoreError where
  | storeUnavailable : StoreError

/-- `EventsSingleton.fire`: debug-log, then `await
secrets.store(EVENT_KEY_PREFIX + event.name, JSON.stringify(event))`.
On success the write is visible in the store and a change notification
for the key is queued (the store notifies every window including the
writer; the model tracks this window's queue), and `fire`'s promise
resolves without waiting for any notification to be processed.  On
store failure the promise rejects; the code contains no retry, so the
only state changes are the log line and the recorded attempt. -/
def fire (s : ProcState) (e : IEventPayload) : Except StoreError Unit × ProcState :=
  let key := EVENT_KEY_PREFIX ++ e.name
  let s1 := { s with
    log := s.log ++ [LogEntry.debug ("Firing event: " ++ e.name)],
    setAttempts := s.setAttempts + 1 }
  if s1.storeAvailable then
    (.ok (), { s1 with
      store := storeSet s1.store key (encodeEvent e),
      pendingNotifs := s1.pendingNotifs ++ [key] })
  else (.error .storeUnavailable, s1)

/-- Fan-out of `vscode.EventEmitter.fire` over the listener list:
returns the invocations (registration index, value) in registration
order and the errors the emitter reports for throwing listeners.
Modelled from the documented VS Code emitter behaviour: a listener
exception is caught and reported by the emitter and the remaining
listeners still run. -/
def emitterFireAux (subs : List Subscriber) (idx : Nat) (v : Json) :
    List (Nat × Json) × List LogEntry :=
  match subs with
  | [] => ([], [])
  | sub :: rest =>
    let p := emitterFireAux rest (idx + 1) v
    ((idx, v) :: p.1, (if sub.throwsOn v then [LogEntry.listenerError idx] else []) ++ p.2)

/-- `eventEmitter.fire(value)` on the process state. -/
def emitterFire (s : ProcState) (v : Json) : ProcState :=
  let p := emitterFireAux s.subs 0 v
  { s with invocations := s.invocations ++ p.1, log := s.log ++ p.2 }

/-- The async `onDidChange` callback wired in the `EventsSingleton`
constructor: if the key starts with `EVENT_KEY_PREFIX`, debug-log and
re-read the current value with `secrets.get`; `if (payload)` skips an
absent value and the empty string alike; otherwise debug-log the
payload and fire `JSON.parse(payload)` on the emitter.  Neither the
`get` rejection nor a `JSON.parse` exception is caught anywhere in the
callback, so either escapes as an unhandled rejection. -/
def handleChange (s : ProcState) (key : String) : ProcState :=
  if strStartsWith key EVENT_KEY_PREFIX then
    let s1 := { s with log := s.log ++ [LogEntry.debug ("Event emitted: " ++ key)] }
    if s1.storeAvailable then
      let s2 := { s1 with reads := s1.reads ++ [key] }
      match storeLookup s2.store key with
      | none => s2
      | some payload =>
        if payload = "" then s2
        else
          let s3 := { s2 with
            log := s2.log ++ [LogEntry.debug ("Event payload: " ++ payload)] }
          match JSONparse payload with
          | some v => emitterFire s3 v
          | none => { s3 with unhandled := s3.unhandled ++ [payload] }
    else { s1 with unhandled := s1.unhandled ++ ["StoreUnavailable"] }
  else s

/-- Process the next queued change notification, if any. -/
def processNext (s : ProcState) : ProcState :=
  match s.pendingNotifs with
  | [] => s
  | key :: rest => handleChange { s with pendingNotifs := rest } key

/-- Run the notification loop for `n` steps. -/
def drain (s : ProcState) : Nat → ProcState
  | 0 => s
  | n + 1 => drain (processNext s) n

/-- State of the module-level singleton of `events.ts`: whether
`EventsSingleton.instance` is set (identified by an id), and how many
store-level `onDidChange` subscriptions constructor runs have
registered in this process. -/
structure SingletonState where
  instanceId : Option Nat
  subscriptionCount : Nat
  nextId : Nat

/-- `EventsSingleton.getInstance`: construct on first access (the
constructor registers the `onDidChange` subscription exactly once),
afterwards return the stored instance.  JavaScript execution is
single-threaded and the constructor contains no suspension point, so
the null check plus assignment run atomically even for two
near-simultaneous first accesses. -/
def getInstance (g : SingletonState) : SingletonState × Nat :=
  match g.instanceId with
  | some i => (g, i)
  | none =>
    ({ instanceId := some g.nextId,
       subscriptionCount := g.subscriptionCount + 1,
       nextId := g.nextId + 1 }, g.nextId)

/-- The module state before any access: no instance, no store-level
subscription registered. -/
def freshSingleton : SingletonState :=
  { instanceId := none, subscriptionCount := 0, nextId := 0 }

/-- Perform `n` successive accesses `events()`, returning the ids of
the returned instances in order. -/
def accessN (g : SingletonState) : Nat → SingletonState × List Nat
  | 0 => (g, [])
  | n + 1 =>
    let p := getInstance g
    let q := accessN p.1 n
    (q.1, p.2 :: q.2)

theorem storeLookup_storeSet_self (st : List (String × String)) (key val : String) :
    storeLookup (storeSet st key val) key = some val := by
  induction st with
  | nil => simp [storeSet, storeLookup]
  | cons kv rest ih =>
    obtain ⟨k, v⟩ := kv
    rw [storeSet]
    by_cases hk : k = key
    · rw [if_pos hk, storeLookup, if_pos rfl]
    · rw [if_neg hk, storeLookup, if_neg hk, ih]

theorem strStartsWith_append (p r : String) :
    strStartsWith (p ++ r) p = true := by
  unfold strStartsWith
  rw [String.data_append]
  simp [List.isPrefixOf_iff_prefix, List.prefix_append]

theorem JSONstringify_ne_empty (v : Json) : JSONstringify v ≠ "" := by
  intro h
  have hd : stringifyVal v = [] := congrArg String.data h
  obtain ⟨c, cs, hcons, _, _⟩ := stringifyVal_cons v
  rw [hcons] at hd
  exact List.cons_ne_nil c cs hd

theorem encodeEvent_ne_empty (e : IEventPayload) : encodeEvent e ≠ "" :=
  JSONstringify_ne_empty _

/-- Decoding the stored envelope gives back exactly the fired
envelope. -/
theorem JSONparse_encodeEvent (e : IEventPayload) :
    JSONparse (encodeEvent e) = some (envelopeJson e) :=
  JSONparse_stringify _

theorem emitterFireAux_fst (v : Json) : ∀ (subs : List Subscriber) (i : Nat),
    (emitterFireAux subs i v).1 =
      (List.range subs.length).map (fun j => (i + j, v)) := by
  intro subs
  induction subs with
  | nil => intro i; simp [emitterFireAux]
  | cons sub rest ih =>
    intro i
    rw [emitterFireAux]
    dsimp only
    rw [ih (i + 1)]
    rw [List.length_cons, List.range_succ_eq_map, List.map_cons, List.map_map]
    rw [Nat.add_zero]
    congr 1
    apply List.map_congr_left
    intro a _
    show (i + 1 + a, v) = (i + (a + 1), v)
    exact congrArg (fun m => (m, v)) (by omega)

theorem emitterFireAux_fst_zero (subs : List Subscriber) (v : Json) :
    (emitterFireAux subs 0 v).1 =
      (List.range subs.length).map (fun j => (j, v)) := by
  rw [emitterFireAux_fst]
  apply List.map_congr_left
  intro a _
  simp

theorem emitterFireAux_err_mem (v : Json) :
    ∀ (subs : List Subscriber) (i j : Nat) (sub : Subscriber),
      subs[j]? = some sub → sub.throwsOn v = true →
      LogEntry.listenerError (i + j) ∈ (emitterFireAux subs i v).2 := by
  intro subs
  induction subs with
  | nil => intro i j sub h; simp at h
  | cons s0 rest ih =>
    intro i j sub hj hthrow
    rw [emitterFireAux]
    dsimp only
    cases j with
    | zero =>
      simp only [List.getElem?_cons_zero, Option.some.injEq] at hj
      subst hj
      rw [Nat.add_zero, hthrow]
      simp
    | succ j =>
      simp only [List.getElem?_cons_succ] at hj
      have := ih (i + 1) j sub hj hthrow
      rw [show i + (j + 1) = i + 1 + j from by omega]
      exact List.mem_append_right _ this

/-- Values delivered by one emitter fan-out: every recorded invocation
carries exactly the fired value. -/
theorem emitterFireAux_snd_val (v : Json) :
    ∀ (subs : List Subscriber) (i : Nat) (p : Nat × Json),
      p ∈ (emitterFireAux subs i v).1 → p.2 = v := by
  intro subs
  induction subs with
  | nil => intro i p h; simp [emitterFireAux] at h
  | cons s0 rest ih =>
    intro i p hp
    rw [emitterFireAux] at hp
    dsimp only at hp
    rcases List.mem_cons.mp hp with h | h
    · subst h; rfl
    · exact ih (i + 1) p h

theorem handleChange_nomatch (s : ProcState) (key : String)
    (h : strStartsWith key EVENT_KEY_PREFIX = false) :
    handleChange s key = s := by
  unfold handleChange
  rw [h]
  simp

theorem handleChange_good (s : ProcState) (key val : String) (v : Json)
    (hpre : strStartsWith key EVENT_KEY_PREFIX = true)
    (havail : s.storeAvailable = true)
    (hlook : storeLookup s.store key = some val)
    (hne : ¬val = "")
    (hparse : JSONparse val = some v) :
    handleChange s key =
      { s with
        log := (s.log ++ [LogEntry.debug ("Event emitted: " ++ key),
            LogEntry.debug ("Event payload: " ++ val)]) ++
          (emitterFireAux s.subs 0 v).2,
        reads := s.reads ++ [key],
        invocations := s.invocations ++ (emitterFireAux s.subs 0 v).1 } := by
  unfold handleChange
  rw [hpre]
  simp only [if_true, havail, hlook, hne, hparse, if_false, emitterFire]
  simp [List.append_assoc]

theorem handleChange_badparse (s : ProcState) (key val : String)
    (hpre : strStartsWith key EVENT_KEY_PREFIX = true)
    (havail : s.storeAvailable = true)
    (hlook : storeLookup s.store key = some val)
    (hne : ¬val = "")
    (hparse : JSONparse val = none) :
    handleChange s key =
      { s with
        log := s.log ++ [LogEntry.debug ("Event emitted: " ++ key),
          LogEntry.debug ("Event payload: " ++ val)],
        reads := s.reads ++ [key],
        unhandled := s.unhandled ++ [val] } := by
  unfold handleChange
  rw [hpre]
  simp only [if_true, havail, hlook, hne, hparse, if_false]
  simp [List.append_assoc]

theorem handleChange_absent (s : ProcState) (key : String)
    (hpre : strStartsWith key EVENT_KEY_PREFIX = true)
    (havail : s.storeAvailable = true)
    (hlook : storeLookup s.store key = none) :
    handleChange s key =
      { s with
        log := s.log ++ [LogEntry.debug ("Event emitted: " ++ key)],
        reads := s.reads ++ [key] } := by
  unfold handleChange
  rw [hpre]
  simp only [if_true, havail, hlook]

theorem handleChange_empty (s : ProcState) (key : String)
    (hpre : strStartsWith key EVENT_KEY_PREFIX = true)
    (havail : s.storeAvailable = true)
    (hlook : storeLookup s.store key = some "") :
    handleChange s key =
      { s with
        log := s.log ++ [LogEntry.debug ("Event emitted: " ++ key)],
        reads := s.reads ++ [key] } := by
  unfold handleChange
  rw [hpre]
  simp only [if_true, havail, hlook]

/-- One fire followed by processing its self-delivery notification, on
a state with an empty notification queue: the write succeeds, and the
handler re-reads the stored envelope, decodes it, and fans it out to
every subscriber exactly once, in registration order. -/
theorem fire_drain_spec (s : ProcState) (e : IEventPayload)
    (havail : s.storeAvailable = true) (hpend : s.pendingNotifs = []) :
    (fire s e).1 = .ok () ∧
    (drain (fire s e).2 1).invocations =
      s.invocations ++ (List.range s.subs.length).map (fun j => (j, envelopeJson e)) ∧
    (drain (fire s e).2 1).unhandled = s.unhandled ∧
    (drain (fire s e).2 1).pendingNotifs = [] := by
  have hfire : fire s e = (.ok (), { s with
      log := s.log ++ [LogEntry.debug ("Firing event: " ++ e.name)],
      setAttempts := s.setAttempts + 1,
      store := storeSet s.store (EVENT_KEY_PREFIX ++ e.name) (encodeEvent e),
      pendingNotifs := s.pendingNotifs ++ [EVENT_KEY_PREFIX ++ e.name] }) := by
    simp [fire, havail]
  rw [hfire]
  refine ⟨rfl, ?_⟩
  rw [hpend]
  simp only [List.nil_append, drain, processNext]
  have hgood := handleChange_good
    { s with
      log := s.log ++ [LogEntry.debug ("Firing event: " ++ e.name)],
      setAttempts := s.setAttempts + 1,
      store := storeSet s.store (EVENT_KEY_PREFIX ++ e.name) (encodeEvent e),
      pendingNotifs := [] }
    (EVENT_KEY_PREFIX ++ e.name) (encodeEvent e) (envelopeJson e)
    (strStartsWith_append EVENT_KEY_PREFIX e.name) havail
    (storeLookup_storeSet_self s.store _ _) (encodeEvent_ne_empty e)
    (JSONparse_encodeEvent e)
  rw [hgood]
  refine ⟨?_, rfl, rfl⟩
  dsimp only
  rw [emitterFireAux_fst_zero]

/-- A subscriber whose callback never throws. -/
def sampleSub : Subscriber := { throwsOn := fun _ => false }

/-- A subscriber whose callback always throws. -/
def throwingSub : Subscriber := { throwsOn := fun _ => true }

/-- A window state with the given store content and subscribers: store
reachable, no pending notification, nothing recorded yet. -/
def initState (store0 : List (String × String)) (subs0 : List Subscriber) :
    ProcState :=
  { store := store0, storeAvailable := true, pendingNotifs := [], reads := [],
    subs := subs0, invocations := [], log := [], unhandled := [],
    setAttempts := 0 }

/-- The payload of the concrete scenario in the spec. -/
def sampleEvent : IEventPayload :=
  { name := "modelProvidersUpdated",
    payload := .cons "ids" (.arr (.cons (.str "a") (.cons (.str "b") .nil))) .nil }

/-- C1.  For every event name N and payload P, after
`fire({name:N, payload:P})` resolves, a direct read of the store key
`EVENT_KEY_PREFIX ++ N` yields the written string, and decoding that
string gives back exactly the envelope `{name:N, payload:P}`. -/
theorem C1_fire_round_trip (s : ProcState) (e : IEventPayload)
    (havail : s.storeAvailable = true) :
    (fire s e).1 = .ok () ∧
    storeLookup (fire s e).2.store (EVENT_KEY_PREFIX ++ e.name)
      = some (encodeEvent e) ∧
    JSONparse (encodeEvent e) = some (envelopeJson e) := by
  refine ⟨?_, ?_, JSONparse_encodeEvent e⟩ <;>
    simp [fire, havail, storeLookup_storeSet_self]

/-- Witness for C1 at the spec's concrete scenario. -/
theorem C1_fire_round_trip_witness :
    (fire (initState [] [sampleSub]) sampleEvent).1 = .ok () ∧
    storeLookup (fire (initState [] [sampleSub]) sampleEvent).2.store
      (EVENT_KEY_PREFIX ++ sampleEvent.name) = some (encodeEvent sampleEvent) ∧
    JSONparse (encodeEvent sampleEvent) = some (envelopeJson sampleEvent) :=
  C1_fire_round_trip (initState [] [sampleSub]) sampleEvent rfl

/-- C5.  A change notification for a key that does not start with the
namespace prefix is ignored: no dispatch, no store read, no log entry
of any kind — the handler leaves the state untouched. -/
theorem C5_namespace_filter (s : ProcState) (key : String)
    (h : strStartsWith key EVENT_KEY_PREFIX = false) :
    (handleChange s key).invocations = s.invocations ∧
    (handleChange s key).reads = s.reads ∧
    (handleChange s key).log = s.log ∧
    handleChange s key = s := by
  have he := handleChange_nomatch s key h
  exact ⟨by rw [he], by rw [he], by rw [he], he⟩

/-- Witness for C5 at a concrete unrelated key. -/
theorem C5_namespace_filter_witness :
    (handleChange (initState [] [sampleSub]) "other.key").invocations =
      (initState [] [sampleSub]).invocations ∧
    (handleChange (initState [] [sampleSub]) "other.key").reads =
      (initState [] [sampleSub]).reads ∧
    (handleChange (initState [] [sampleSub]) "other.key").log =
      (initState [] [sampleSub]).log ∧
    handleChange (initState [] [sampleSub]) "other.key" =
      initState [] [sampleSub] :=
  C5_namespace_filter (initState [] [sampleSub]) "other.key" (by decide)

/-- C6.  Subscribing handlers and then firing once, with no intervening
write to the same key (the run consists of exactly the fire and its one
notification), invokes every registered handler exactly once, in
registration order, with the fired envelope as argument. -/
theorem C6_single_dispatch (s : ProcState) (e : IEventPayload)
    (havail : s.storeAvailable = true) (hpend : s.pendingNotifs = []) :
    (fire s e).1 = .ok () ∧
    (drain (fire s e).2 1).invocations =
      s.invocations ++
        (List.range s.subs.length).map (fun j => (j, envelopeJson e)) :=
  ⟨(fire_drain_spec s e havail hpend).1, (fire_drain_spec s e havail hpend).2.1⟩

/-- Witness for C6: one subscriber, one fire, exactly one invocation
carrying the envelope. -/
theorem C6_single_dispatch_witness :
    (fire (initState [] [sampleSub]) sampleEvent).1 = .ok () ∧
    (drain (fire (initState [] [sampleSub]) sampleEvent).2 1).invocations =
      (initState [] [sampleSub]).invocations ++
        (List.range (initState [] [sampleSub]).subs.length).map
          (fun j => (j, envelopeJson sampleEvent)) :=
  C6_single_dispatch (initState [] [sampleSub]) sampleEvent rfl rfl

/-- C7.  One emitter dispatch invokes every subscriber in registration
order with the dispatched value — regardless of which subscribers
throw, so a throwing subscriber never prevents a later one from
observing the event — and every throwing subscriber's error is
reported in the log. -/
theorem C7_subscriber_isolation (s : ProcState) (v : Json) :
    (emitterFire s v).invocations =
      s.invocations ++ (List.range s.subs.length).map (fun j => (j, v)) ∧
    ∀ j sub, s.subs[j]? = some sub → sub.throwsOn v = true →
      LogEntry.listenerError j ∈ (emitterFire s v).log := by
  constructor
  · unfold emitterFire
    dsimp only
    rw [emitterFireAux_fst_zero]
  · intro j sub hj hthrow
    unfold emitterFire
    dsimp only
    have := emitterFireAux_err_mem v s.subs 0 j sub hj hthrow
    rw [Nat.zero_add] at this
    exact List.mem_append_right _ this

/-- Witness for C7: subscriber 0 throws, subscriber 1 still gets the
event, and the throw is reported. -/
theorem C7_subscriber_isolation_witness :
    (emitterFire (initState [] [throwingSub, sampleSub]) (Json.num 1)).invocations =
      [(0, Json.num 1), (1, Json.num 1)] ∧
    LogEntry.listenerError 0 ∈
      (emitterFire (initState [] [throwingSub, sampleSub]) (Json.num 1)).log := by
  have h := C7_subscriber_isolation (initState [] [throwingSub, sampleSub]) (Json.num 1)
  refine ⟨?_, h.2 0 throwingSub rfl rfl⟩
  rw [h.1]
  rfl

/-- C8.  Over any number of accesses in one process, every access after
the first returns the same instance as the first, and exactly one
store-level subscription is ever registered. -/
theorem C8_singleton (n : Nat) :
    (accessN freshSingleton (n + 1)).2 = List.replicate (n + 1) 0 ∧
    (accessN freshSingleton (n + 1)).1.subscriptionCount = 1 := by
  have hstep : ∀ (m : Nat) (g : SingletonState) (i : Nat), g.instanceId = some i →
      accessN g m = (g, List.replicate m i) := by
    intro m
    induction m with
    | zero => intro g i _; simp [accessN]
    | succ m ih =>
      intro g i hg
      have hget : getInstance g = (g, i) := by
        unfold getInstance
        rw [hg]
      rw [accessN, hget]
      dsimp only
      rw [ih g i hg]
      simp [List.replicate_succ]
  have hfirst : getInstance freshSingleton =
      ({ instanceId := some 0, subscriptionCount := 1, nextId := 1 }, 0) := rfl
  rw [accessN, hfirst]
  dsimp only
  rw [hstep n { instanceId := some 0, subscriptionCount := 1, nextId := 1 } 0 rfl]
  simp [List.replicate_succ]

/-- C9.  When the store is unavailable during `fire`, the call rejects
with `StoreUnavailable`, the store and queue are untouched, and exactly
one write attempt was made (no retry); when the store is available, the
call resolves while the notification is still queued and before any
subscriber has been invoked. -/
theorem C9_fire_failure_and_resolution (s : ProcState) (e : IEventPayload) :
    ((fire { s with storeAvailable := false } e).1 = .error .storeUnavailable ∧
     (fire { s with storeAvailable := false } e).2.store = s.store ∧
     (fire { s with storeAvailable := false } e).2.pendingNotifs = s.pendingNotifs ∧
     (fire { s with storeAvailable := false } e).2.invocations = s.invocations ∧
     (fire { s with storeAvailable := false } e).2.setAttempts = s.setAttempts + 1) ∧
    ((fire { s with storeAvailable := true } e).1 = .ok () ∧
     (fire { s with storeAvailable := true } e).2.invocations = s.invocations ∧
     (fire { s with storeAvailable := true } e).2.pendingNotifs =
       s.pendingNotifs ++ [EVENT_KEY_PREFIX ++ e.name] ∧
     (fire { s with storeAvailable := true } e).2.setAttempts = s.setAttempts + 1) := by
  constructor
  · refine ⟨?_, ?_, ?_, ?_, ?_⟩ <;> simp [fire]
  · refine ⟨?_, ?_, ?_, ?_⟩ <;> simp [fire]

/-- C10.  On a prefixed key whose current value is absent or the empty
string, the handler logs the arrival, reads the key, and stops: no
dispatch, no unhandled error — the truthiness guard treats the empty
string like an absent value instead of parsing it. -/
theorem C10_truthiness_guard (s : ProcState) (key : String)
    (hpre : strStartsWith key EVENT_KEY_PREFIX = true)
    (havail : s.storeAvailable = true)
    (hlook : storeLookup s.store key = none ∨ storeLookup s.store key = some "") :
    (handleChange s key).invocations = s.invocations ∧
    (handleChange s key).unhandled = s.unhandled ∧
    (handleChange s key).log =
      s.log ++ [LogEntry.debug ("Event emitted: " ++ key)] ∧
    (handleChange s key).reads = s.reads ++ [key] := by
  rcases hlook with hlook | hlook
  · rw [handleChange_absent s key hpre havail hlook]
    exact ⟨rfl, rfl, rfl, rfl⟩
  · rw [handleChange_empty s key hpre havail hlook]
    exact ⟨rfl, rfl, rfl, rfl⟩

/-- Witness for C10 at a present-but-empty value. -/
theorem C10_truthiness_guard_witness :
    (handleChange (initState [(EVENT_KEY_PREFIX ++ "x", "")] [sampleSub])
        (EVENT_KEY_PREFIX ++ "x")).invocations =
      (initState [(EVENT_KEY_PREFIX ++ "x", "")] [sampleSub]).invocations ∧
    (handleChange (initState [(EVENT_KEY_PREFIX ++ "x", "")] [sampleSub])
        (EVENT_KEY_PREFIX ++ "x")).unhandled =
      (initState [(EVENT_KEY_PREFIX ++ "x", "")] [sampleSub]).unhandled ∧
    (handleChange (initState [(EVENT_KEY_PREFIX ++ "x", "")] [sampleSub])
        (EVENT_KEY_PREFIX ++ "x")).log =
      (initState [(EVENT_KEY_PREFIX ++ "x", "")] [sampleSub]).log ++
        [LogEntry.debug ("Event emitted: " ++ (EVENT_KEY_PREFIX ++ "x"))] ∧
    (handleChange (initState [(EVENT_KEY_PREFIX ++ "x", "")] [sampleSub])
        (EVENT_KEY_PREFIX ++ "x")).reads =
      (initState [(EVENT_KEY_PREFIX ++ "x", "")] [sampleSub]).reads ++
        [EVENT_KEY_PREFIX ++ "x"] :=
  C10_truthiness_guard (initState [(EVENT_KEY_PREFIX ++ "x", "")] [sampleSub])
    (EVENT_KEY_PREFIX ++ "x") (strStartsWith_append EVENT_KEY_PREFIX "x") rfl
    (Or.inr rfl)

/-- Step equation of the notification loop on a nonempty queue. -/
theorem processNext_cons (s : ProcState) (key : String) (rest : List String)
    (h : s.pendingNotifs = key :: rest) :
    processNext s = handleChange { s with pendingNotifs := rest } key := by
  unfold processNext
  rw [h]

/-- Whether a parsed JSON value carries a `name` field, which the
spec's envelope codec is said to require. -/
def objHasName : JsonObj → Bool
  | .nil => false
  | .cons k _ tl => k = "name" || objHasName tl

/-- Shape check of the spec's codec on a decoded value. -/
def hasNameField : Json → Bool
  | .obj fs => objHasName fs
  | _ => false

/-- Valid JSON without a `name` field. -/
def c3NoName : String := "\x7b\"payload\":\x7b\x7d\x7d"

/-- Valid JSON with a `name` field but no `payload` field. -/
def c3NameOnly : String := "\x7b\"name\":\"x\"\x7d"

/-- A string that is not valid JSON. -/
def c3NotJson : String := "not json"

/-- C3 counterexample: the code's decoder is `JSON.parse` with no shape
validation.  Input without a `name` field is decoded successfully
instead of being rejected, and input without a `payload` field is
decoded to an object with no `payload` entry rather than one defaulted
to the empty mapping. -/
theorem C3_counterexample :
    JSONparse c3NoName = some (.obj (.cons "payload" (.obj .nil) .nil)) ∧
    hasNameField (.obj (.cons "payload" (.obj .nil) .nil)) = false ∧
    JSONparse c3NameOnly = some (.obj (.cons "name" (.str "x") .nil)) ∧
    (Json.obj (.cons "name" (.str "x") .nil) ≠
      Json.obj (.cons "name" (.str "x") (.cons "payload" (.obj .nil) .nil))) := by
  refine ⟨rfl, rfl, rfl, ?_⟩
  intro h
  injection h with h1
  injection h1 with h2 h3 h4
  exact JsonObj.noConfusion h4

/-- C3 amended: decoding is `JSON.parse`.  It rejects input that is
not valid JSON, but performs no envelope validation: any JSON value —
in particular one missing the `name` field — decodes to itself and is
dispatched as-is, and an absent `payload` field is not defaulted. -/
theorem C3_amended_decode :
    JSONparse c3NotJson = none ∧
    (∀ v : Json, JSONparse (JSONstringify v) = some v) ∧
    JSONparse c3NoName = some (.obj (.cons "payload" (.obj .nil) .nil)) ∧
    JSONparse c3NameOnly = some (.obj (.cons "name" (.str "x") .nil)) ∧
    (handleChange (initState [(EVENT_KEY_PREFIX ++ "x", c3NoName)] [sampleSub])
        (EVENT_KEY_PREFIX ++ "x")).invocations =
      [(0, .obj (.cons "payload" (.obj .nil) .nil))] :=
  ⟨rfl, JSONparse_stringify, rfl, rfl, rfl⟩

/-- The key used in the malformed-value scenarios. -/
def c4Key : String := EVENT_KEY_PREFIX ++ "x"

/-- A window state whose store holds a value that is not valid JSON
under a bus key. -/
def c4State : ProcState := initState [(c4Key, "oops")] [sampleSub]

/-- C4 counterexample: on a prefixed key holding invalid JSON the
handler performs zero dispatches, but it does not log the decode
failure — the log holds exactly the two debug lines printed before the
parse — and the `JSON.parse` exception escapes the uncatching async
callback as an unhandled rejection. -/
theorem C4_counterexample :
    (handleChange c4State c4Key).invocations = [] ∧
    (handleChange c4State c4Key).unhandled = ["oops"] ∧
    (handleChange c4State c4Key).log =
      [LogEntry.debug ("Event emitted: " ++ c4Key),
        LogEntry.debug ("Event payload: " ++ "oops")] :=
  ⟨rfl, rfl, rfl⟩

/-- C4 amended: a change notification on a prefixed key whose current
value does not parse produces zero dispatches; the failure is not
logged (only the two preceding debug lines are) and instead escapes as
an unhandled rejection; and the bus stays usable: a subsequent
well-formed `fire` is written and dispatched to every subscriber. -/
theorem C4_amended (s : ProcState) (key val : String) (e : IEventPayload)
    (hpre : strStartsWith key EVENT_KEY_PREFIX = true)
    (havail : s.storeAvailable = true)
    (hpend : s.pendingNotifs = [])
    (hlook : storeLookup s.store key = some val)
    (hne : ¬val = "")
    (hparse : JSONparse val = none) :
    (handleChange s key).invocations = s.invocations ∧
    (handleChange s key).log = s.log ++
      [LogEntry.debug ("Event emitted: " ++ key),
        LogEntry.debug ("Event payload: " ++ val)] ∧
    (handleChange s key).unhandled = s.unhandled ++ [val] ∧
    (fire (handleChange s key) e).1 = .ok () ∧
    (drain (fire (handleChange s key) e).2 1).invocations =
      s.invocations ++
        (List.range s.subs.length).map (fun j => (j, envelopeJson e)) := by
  rw [handleChange_badparse s key val hpre havail hlook hne hparse]
  have h := fire_drain_spec
    { s with
      log := s.log ++ [LogEntry.debug ("Event emitted: " ++ key),
        LogEntry.debug ("Event payload: " ++ val)],
      reads := s.reads ++ [key],
      unhandled := s.unhandled ++ [val] }
    e havail hpend
  refine ⟨rfl, rfl, rfl, h.1, ?_⟩
  rw [h.2.1]

/-- Witness for C4's amended claim at the concrete malformed store
value, followed by the spec's concrete well-formed event. -/
theorem C4_amended_witness :
    (handleChange c4State c4Key).invocations = c4State.invocations ∧
    (handleChange c4State c4Key).log = c4State.log ++
      [LogEntry.debug ("Event emitted: " ++ c4Key),
        LogEntry.debug ("Event payload: " ++ "oops")] ∧
    (handleChange c4State c4Key).unhandled = c4State.unhandled ++ ["oops"] ∧
    (fire (handleChange c4State c4Key) sampleEvent).1 = .ok () ∧
    (drain (fire (handleChange c4State c4Key) sampleEvent).2 1).invocations =
      c4State.invocations ++
        (List.range c4State.subs.length).map
          (fun j => (j, envelopeJson sampleEvent)) :=
  C4_amended c4State c4Key "oops" sampleEvent
    (strStartsWith_append EVENT_KEY_PREFIX "x") rfl rfl rfl
    (by decide) rfl

/-- The intermediate payload of the coalescing scenario. -/
def v1Payload : JsonObj := .cons "v" (.num 1) .nil

/-- The final payload of the coalescing scenario. -/
def v2Payload : JsonObj := .cons "v" (.num 2) .nil

/-- First fired event of the coalescing scenario. -/
def c2E1 : IEventPayload := { name := "X", payload := v1Payload }

/-- Second fired event of the coalescing scenario. -/
def c2E2 : IEventPayload := { name := "X", payload := v2Payload }

/-- One window, one subscriber, empty store. -/
def c2Init : ProcState := initState [] [sampleSub]

/-- Fire `{v:1}` then `{v:2}` before any notification is processed,
then process all notifications. -/
def c2Run : ProcState := drain (fire (fire c2Init c2E1).2 c2E2).2 2

/-- The two envelopes of the coalescing scenario differ. -/
theorem c2_envelopes_ne : envelopeJson c2E2 ≠ envelopeJson c2E1 := by
  intro h
  injection h with h1
  injection h1 with hk h2 h3
  injection h3 with hk2 h4 h5
  injection h4 with h6
  injection h6 with hk3 h7 h8
  injection h7 with h9
  omega

/-- C2 counterexample: each of the two writes triggers its own change
notification, and each notification re-reads the latest value and
dispatches it — so two dispatches occur for name `X`, refuting "at most
one dispatch". -/
theorem C2_counterexample :
    c2Run.invocations = [(0, envelopeJson c2E2), (0, envelopeJson c2E2)] ∧
    ¬ c2Run.invocations.length ≤ 1 := by
  constructor
  · rfl
  · decide

/-- C2 amended: firing `{v:1}` then `{v:2}` for the same name before
any notification is processed yields one dispatch per write — each
fan-out delivering to every subscriber — and every dispatch carries the
final payload `{v:2}`; no subscriber is ever invoked with `{v:1}`. -/
theorem C2_amended (s : ProcState)
    (havail : s.storeAvailable = true) (hpend : s.pendingNotifs = [])
    (hinv : s.invocations = []) :
    ((drain (fire (fire s c2E1).2 c2E2).2 2).invocations =
      (List.range s.subs.length).map (fun j => (j, envelopeJson c2E2)) ++
        (List.range s.subs.length).map (fun j => (j, envelopeJson c2E2))) ∧
    (∀ p ∈ (drain (fire (fire s c2E1).2 c2E2).2 2).invocations,
      p.2 = envelopeJson c2E2 ∧ p.2 ≠ envelopeJson c2E1) := by
  have hfire2 : fire (fire s c2E1).2 c2E2 = (.ok (), { s with
      log := s.log ++ [LogEntry.debug ("Firing event: " ++ c2E1.name)] ++
        [LogEntry.debug ("Firing event: " ++ c2E2.name)],
      setAttempts := s.setAttempts + 1 + 1,
      store := storeSet
        (storeSet s.store (EVENT_KEY_PREFIX ++ c2E1.name) (encodeEvent c2E1))
        (EVENT_KEY_PREFIX ++ c2E2.name) (encodeEvent c2E2),
      pendingNotifs := s.pendingNotifs ++ [EVENT_KEY_PREFIX ++ c2E1.name] ++
        [EVENT_KEY_PREFIX ++ c2E2.name] }) := by
    simp [fire, havail]
  rw [hpend] at hfire2
  simp only [List.nil_append, List.singleton_append] at hfire2
  have hmain :
      (drain (fire (fire s c2E1).2 c2E2).2 2).invocations =
        (List.range s.subs.length).map (fun j => (j, envelopeJson c2E2)) ++
          (List.range s.subs.length).map (fun j => (j, envelopeJson c2E2)) := by
    rw [hfire2]
    set S2 := storeSet
      (storeSet s.store (EVENT_KEY_PREFIX ++ c2E1.name) (encodeEvent c2E1))
      (EVENT_KEY_PREFIX ++ c2E2.name) (encodeEvent c2E2) with hS2
    set L2 := s.log ++ [LogEntry.debug ("Firing event: " ++ c2E1.name)] ++
      [LogEntry.debug ("Firing event: " ++ c2E2.name)] with hL2
    simp only [drain]
    rw [processNext_cons
      { s with
        log := L2,
        setAttempts := s.setAttempts + 1 + 1,
        store := S2,
        pendingNotifs := [EVENT_KEY_PREFIX ++ c2E1.name,
          EVENT_KEY_PREFIX ++ c2E2.name] }
      (EVENT_KEY_PREFIX ++ c2E1.name) [EVENT_KEY_PREFIX ++ c2E2.name] rfl]
    dsimp only
    rw [handleChange_good
      { s with
        log := L2,
        setAttempts := s.setAttempts + 1 + 1,
        store := S2,
        pendingNotifs := [EVENT_KEY_PREFIX ++ c2E2.name] }
      (EVENT_KEY_PREFIX ++ c2E1.name) (encodeEvent c2E2) (envelopeJson c2E2)
      (strStartsWith_append EVENT_KEY_PREFIX c2E1.name) havail
      (storeLookup_storeSet_self _ _ _) (encodeEvent_ne_empty c2E2)
      (JSONparse_encodeEvent c2E2)]
    dsimp only
    rw [processNext_cons
      { s with
        log := L2 ++
          [LogEntry.debug ("Event emitted: " ++ (EVENT_KEY_PREFIX ++ c2E1.name)),
            LogEntry.debug ("Event payload: " ++ encodeEvent c2E2)] ++
          (emitterFireAux s.subs 0 (envelopeJson c2E2)).2,
        setAttempts := s.setAttempts + 1 + 1,
        store := S2,
        pendingNotifs := [EVENT_KEY_PREFIX ++ c2E2.name],
        reads := s.reads ++ [EVENT_KEY_PREFIX ++ c2E1.name],
        invocations := s.invocations ++
          (emitterFireAux s.subs 0 (envelopeJson c2E2)).1 }
      (EVENT_KEY_PREFIX ++ c2E2.name) [] rfl]
    dsimp only
    rw [handleChange_good
      { s with
        log := L2 ++
          [LogEntry.debug ("Event emitted: " ++ (EVENT_KEY_PREFIX ++ c2E1.name)),
            LogEntry.debug ("Event payload: " ++ encodeEvent c2E2)] ++
          (emitterFireAux s.subs 0 (envelopeJson c2E2)).2,
        setAttempts := s.setAttempts + 1 + 1,
        store := S2,
        pendingNotifs := [],
        reads := s.reads ++ [EVENT_KEY_PREFIX ++ c2E1.name],
        invocations := s.invocations ++
          (emitterFireAux s.subs 0 (envelopeJson c2E2)).1 }
      (EVENT_KEY_PREFIX ++ c2E2.name) (encodeEvent c2E2) (envelopeJson c2E2)
      (strStartsWith_append EVENT_KEY_PREFIX c2E2.name) havail
      (storeLookup_storeSet_self _ _ _) (encodeEvent_ne_empty c2E2)
      (JSONparse_encodeEvent c2E2)]
    dsimp only
    rw [hinv, emitterFireAux_fst_zero]
    simp
  refine ⟨hmain, ?_⟩
  intro p hp
  rw [hmain] at hp
  have hval : p.2 = envelopeJson c2E2 := by
    rcases List.mem_append.mp hp with h | h <;>
      · obtain ⟨j, _, rfl⟩ := List.mem_map.mp h
        rfl
  exact ⟨hval, by rw [hval]; exact c2_envelopes_ne⟩

/-- Witness for C2's amended claim in the concrete one-subscriber
scenario. -/
theorem C2_amended_witness :
    (c2Run.invocations =
      (List.range c2Init.subs.length).map (fun j => (j, envelopeJson c2E2)) ++
        (List.range c2Init.subs.length).map (fun j => (j, envelopeJson c2E2))) ∧
    ((0, envelopeJson c2E2).2 = envelopeJson c2E2 ∧
      (0, envelopeJson c2E2).2 ≠ envelopeJson c2E1) := by
  have h := C2_amended c2Init rfl rfl rfl
  refine ⟨h.1, h.2 (0, envelopeJson c2E2) ?_⟩
  rw [h.1]
  exact List.Mem.head _

end CrossWindowEvents
